import Mathlib

/-!
Verification of the weekend-day counting utility (assignment1.py).

The program is embedded shallowly: Python strings become `List Char`,
Python `int` becomes `Int` (Python integers are unbounded), functions that
can raise become `Option`-valued, and the `while` loop of `day_count` is
modelled with explicit fuel so that termination itself is a provable
statement.  Python's `//` and `%` on the positive divisors used here agree
with `Int`'s `/` (Euclidean) and `%`, since Euclidean and floor division
coincide for positive divisors.
-/

namespace Assignment1

/-- Drops leading and trailing whitespace, as Python's `str.strip()` does
before `int()` conversion. -/
def trimWs (cs : List Char) : List Char :=
  ((cs.dropWhile Char.isWhitespace).reverse.dropWhile Char.isWhitespace).reverse

/-- Accumulating scanner for the digit part of a Python integer literal:
digits, with single underscores allowed between digits. -/
def pyIntAux (acc : Nat) : List Char → Option Nat
  | [] => some acc
  | c :: cs =>
    if c.isDigit then pyIntAux (10 * acc + (c.toNat - 48)) cs
    else if c = '_' then
      match cs with
      | [] => none
      | c2 :: cs2 =>
        if c2.isDigit then pyIntAux (10 * acc + (c2.toNat - 48)) cs2 else none
    else none

/-- Nonempty digit sequence (first character must be a digit). -/
def pyIntDigits : List Char → Option Nat
  | [] => none
  | c :: cs => if c.isDigit then pyIntAux (c.toNat - 48) cs else none

/-- Python's `int(str)` conversion on a decimal string: optional
surrounding whitespace, optional single sign, then digits.  Returns
`none` where Python raises `ValueError`. -/
def pyInt (cs : List Char) : Option Int :=
  match trimWs cs with
  | [] => none
  | c :: rest =>
    if c = '-' then (pyIntDigits rest).map (fun n => -(n : Int))
    else if c = '+' then (pyIntDigits rest).map (fun n => (n : Int))
    else (pyIntDigits (c :: rest)).map (fun n => (n : Int))

/-- Horner step used to spell out the value that `pyIntAux` accumulates. -/
def digitFold (a : Nat) (c : Char) : Nat := 10 * a + (c.toNat - 48)

/-- Python's `str.split(sep)` for a one-character separator. -/
def splitOnChar (sep : Char) : List Char → List (List Char)
  | [] => [[]]
  | c :: cs =>
    if c = sep then [] :: splitOnChar sep cs
    else
      match splitOnChar sep cs with
      | [] => [[c]]
      | g :: gs => (c :: g) :: gs

/-- The function `parse_date`: DD/MM/YYYY if the text contains a slash, else YYYY-MM-DD
if it contains a dash; exactly three integer fields required.  Returns
`(day, month, year)`; `none` models the raised `ValueError`. -/
def parse_date (date : List Char) : Option (Int × Int × Int) :=
  if '/' ∈ date then
    match splitOnChar '/' date with
    | [f1, f2, f3] => do
      let day ← pyInt f1
      let month ← pyInt f2
      let year ← pyInt f3
      pure (day, month, year)
    | _ => none
  else if '-' ∈ date then
    match splitOnChar '-' date with
    | [f1, f2, f3] => do
      let year ← pyInt f1
      let month ← pyInt f2
      let day ← pyInt f3
      pure (day, month, year)
    | _ => none
  else none

/-- The function `leap_year`: divisible by 4 and (not divisible by 100 or divisible by 400). -/
def leap_year (year : Int) : Bool :=
  year % 4 == 0 && (year % 100 != 0 || year % 400 == 0)

/-- The function `mon_max`: maximum day of the month (February via `leap_year`; the
31-day default also covers out-of-range months, as in the source). -/
def mon_max (month year : Int) : Int :=
  if month == 2 then (if leap_year year then 29 else 28)
  else if month ∈ ([4, 6, 9, 11] : List Int) then 30
  else 31

/-- The function `valid_date`: parse, then range-check month and day; parse failure
yields `false`. -/
def valid_date (date : List Char) : Bool :=
  match parse_date date with
  | none => false
  | some (day, month, year) =>
    if month < 1 || month > 12 then false
    else if day < 1 || day > mon_max month year then false
    else true

/-- The weekday-name table `days` of `day_of_week`. -/
def days : List String := ["Sun", "Mon", "Tue", "Wed", "Thu", "Fri", "Sat"]

/-- The per-month `offset` dictionary of `day_of_week`; `none` models the
`KeyError` raised on a month outside 1..12. -/
def offset (month : Int) : Option Int :=
  if month == 1 then some 0 else if month == 2 then some 3
  else if month == 3 then some 2 else if month == 4 then some 5
  else if month == 5 then some 0 else if month == 6 then some 3
  else if month == 7 then some 5 else if month == 8 then some 1
  else if month == 9 then some 4 else if month == 10 then some 6
  else if month == 11 then some 2 else if month == 12 then some 4
  else none

/-- The function `day_of_week`: Zeller-style congruence over a fixed offset table,
mapping 0..6 to Sun..Sat. -/
def day_of_week (date : List Char) : Option String := do
  let (day, month, year) ← parse_date date
  let off ← offset month
  let y := if month < 3 then year - 1 else year
  let num := (y + y / 4 - y / 100 + y / 400 + off + day) % 7
  days.get? num.toNat

/-- Fuel-driven most-significant-first decimal rendering of a natural
number; the fuel only needs to exceed the number of digits. -/
def natCharsAux : Nat → Nat → List Char → List Char
  | 0, _, acc => acc
  | fuel + 1, n, acc =>
    if n < 10 then Nat.digitChar n :: acc
    else natCharsAux fuel (n / 10) (Nat.digitChar (n % 10) :: acc)

/-- Decimal rendering of a natural number, as Python's `str`. -/
def natChars (n : Nat) : List Char := natCharsAux (n + 1) n []

/-- Decimal rendering of an integer, as Python's `str`. -/
def intChars (n : Int) : List Char :=
  if n < 0 then '-' :: natChars (-n).toNat else natChars n.toNat

/-- Python's `f"{n:02}"`: pad with a leading zero to width two. -/
def pad2 (n : Int) : List Char :=
  let s := intChars n
  if s.length < 2 then '0' :: s else s

/-- The f-string `f"{year}-{month:02}-{day:02}"` used by `after` and
`before`. -/
def fmtDate (day month year : Int) : List Char :=
  intChars year ++ '-' :: (pad2 month ++ '-' :: pad2 day)

/-- The function `after`: the next day's date rendered in YYYY-MM-DD form. -/
def after (date : List Char) : Option (List Char) := do
  let (day0, month, year) ← parse_date date
  let day := day0 + 1
  if day > mon_max month year then
    if month + 1 > 12 then pure (fmtDate 1 1 (year + 1))
    else pure (fmtDate 1 (month + 1) year)
  else pure (fmtDate day month year)

/-- The function `before`: the previous day's date rendered in YYYY-MM-DD form. -/
def before (date : List Char) : Option (List Char) := do
  let (day0, month, year) ← parse_date date
  let day := day0 - 1
  if day < 1 then
    if month - 1 < 1 then
      pure (fmtDate (mon_max 12 (year - 1)) 12 (year - 1))
    else
      pure (fmtDate (mon_max (month - 1) year) (month - 1) year)
  else pure (fmtDate day month year)

/-- Range restriction enforced by Python's `datetime` constructor
(`datetime.MINYEAR = 1`, `datetime.MAXYEAR = 9999`, real month and day);
its month lengths agree with `mon_max` on months 1..12. -/
def datetimeOK (day month year : Int) : Bool :=
  decide (1 ≤ year ∧ year ≤ 9999 ∧ 1 ≤ month ∧ month ≤ 12 ∧
    1 ≤ day ∧ day ≤ mon_max month year)

/-- Strict chronological order on `(day, month, year)` triples: year,
then month, then day. -/
abbrev chronLt : Int × Int × Int → Int × Int × Int → Prop
  | (d1, m1, y1), (d2, m2, y2) =>
    y1 < y2 ∨ (y1 = y2 ∧ (m1 < m2 ∨ (m1 = m2 ∧ d1 < d2)))

/-- Reflexive chronological order. -/
abbrev chronLe (a b : Int × Int × Int) : Prop := chronLt a b ∨ a = b

/-- Boolean chronological comparison, as Python's `datetime` compares
instants. -/
def lexLt3 (a b : Int × Int × Int) : Bool := decide (chronLt a b)

/-- The function `date_compare`: parse both dates, build `datetime` objects (which
raises — modelled `none` — outside the supported range) and compare.  -/
def date_compare (start_date end_date : List Char) : Option Bool := do
  let s ← parse_date start_date
  let e ← parse_date end_date
  if datetimeOK s.1 s.2.1 s.2.2 && datetimeOK e.1 e.2.1 e.2.2 then
    pure (lexLt3 s e)
  else none

/-- The `while date != end_date` loop of `day_count`, with fuel.
`none` means the fuel ran out with the loop still running; `some none`
models an exception escaping the loop body; `some (some c)` means the
loop exited normally with counter `c`. -/
def day_countLoop : Nat → List Char → List Char → Int → Option (Option Int)
  | 0, date, end_date, count =>
    if date = end_date then some (some count) else none
  | fuel + 1, date, end_date, count =>
    if date = end_date then some (some count)
    else
      match day_of_week date with
      | none => some none
      | some w =>
        let count' := if w ∈ (["Sat", "Sun"] : List String) then count + 1 else count
        match after date with
        | none => some none
        | some d2 => day_countLoop fuel d2 end_date count'

/-- The function `day_count`: run the loop, then also count the end date itself. -/
def day_count (fuel : Nat) (start_date end_date : List Char) : Option (Option Int) :=
  match day_countLoop fuel start_date end_date 0 with
  | none => none
  | some none => some none
  | some (some count) =>
    match day_of_week end_date with
    | none => some none
    | some w =>
      some (some (if w ∈ (["Sat", "Sun"] : List String) then count + 1 else count))

/-- Observable outcome of the `__main__` block on two date arguments. -/
inductive MainResult where
  | usage : MainResult
  | crashed : MainResult
  | printed : List Char → MainResult
deriving DecidableEq

/-- The output f-string of the `__main__` block. -/
def theLine (startDate endDate : List Char) (n : Int) : List Char :=
  "The period between ".toList ++ startDate ++ " and ".toList ++ endDate ++
    " includes ".toList ++ intChars n ++ " weekend days.".toList

/-- The `__main__` block after the argument-count check: validate both
arguments, order them with `date_compare` (swapping when the first is not
strictly earlier), count weekend days and print.  `none` means the
program never terminates (the loop fuel is never enough). -/
def runMain (fuel : Nat) (arg1 arg2 : List Char) : Option MainResult :=
  if !valid_date arg1 || !valid_date arg2 then some MainResult.usage
  else
    match date_compare arg1 arg2 with
    | none => some MainResult.crashed
    | some b =>
      let s := if b then arg1 else arg2
      let e := if b then arg2 else arg1
      match day_count fuel s e with
      | none => none
      | some none => some MainResult.crashed
      | some (some n) => some (MainResult.printed (theLine s e n))

/-! ### Triple-level (pure) counterparts used to state and prove facts
about the string-level functions. -/

/-- A `(day, month, year)` triple denotes a real calendar date. -/
abbrev validT : Int × Int × Int → Prop
  | (day, month, year) =>
    1 ≤ month ∧ month ≤ 12 ∧ 1 ≤ day ∧ day ≤ mon_max month year

/-- The date-stepping arithmetic of `after`, on triples. -/
def nextT : Int × Int × Int → Int × Int × Int
  | (day, month, year) =>
    if day + 1 > mon_max month year then
      if month + 1 > 12 then (1, 1, year + 1) else (1, month + 1, year)
    else (day + 1, month, year)

/-- The date-stepping arithmetic of `before`, on triples. -/
def prevT : Int × Int × Int → Int × Int × Int
  | (day, month, year) =>
    if day - 1 < 1 then
      if month - 1 < 1 then (mon_max 12 (year - 1), 12, year - 1)
      else (mon_max (month - 1) year, month - 1, year)
    else (day - 1, month, year)

/-- Days of the year strictly before month `m` (months clamped to 1..12
by the callers). -/
def cumDays (year m : Int) : Int :=
  (if 2 < m ∧ leap_year year then 1 else 0) +
  (if m ≤ 1 then 0 else if m = 2 then 31 else if m = 3 then 59
   else if m = 4 then 90 else if m = 5 then 120 else if m = 6 then 151
   else if m = 7 then 181 else if m = 8 then 212 else if m = 9 then 243
   else if m = 10 then 273 else if m = 11 then 304 else 334)

/-- Linear day number of a date (proleptic Gregorian, day 1 of year 1
maps to 1): every valid date maps to a distinct integer and `nextT` adds
exactly one. -/
def dayNum : Int × Int × Int → Int
  | (day, month, year) =>
    365 * year + (year - 1) / 4 - (year - 1) / 100 + (year - 1) / 400 +
      cumDays year month + day

/-- Iterated `nextT`. -/
def iterN : Nat → Int × Int × Int → Int × Int × Int
  | 0, t => t
  | n + 1, t => iterN n (nextT t)

/-- The `n` consecutive dates starting at `t`. -/
def dayList : Nat → Int × Int × Int → List (Int × Int × Int)
  | 0, _ => []
  | n + 1, t => t :: dayList n (nextT t)

/-- The weekday index 0..6 (Sun..Sat) computed by `day_of_week`'s
congruence, on triples. -/
def dayIdx : Int × Int × Int → Int
  | (day, month, year) =>
    let off := (offset month).getD 0
    let y := if month < 3 then year - 1 else year
    (y + y / 4 - y / 100 + y / 400 + off + day) % 7

/-- A date is a weekend day when its weekday index is Sunday (0) or
Saturday (6). -/
def isWeekendT (t : Int × Int × Int) : Bool :=
  dayIdx t == 0 || dayIdx t == 6

/-- Number of weekend days among the `n` consecutive dates starting at
`t` — the specification-side count. -/
def weekendCount (n : Nat) (t : Int × Int × Int) : Int :=
  ((dayList n t).filter isWeekendT).length

/-- The `day_count` walk terminates: some finite fuel suffices for the
`while` loop to exit and produce a value. -/
def day_countTerminates (start_date end_date : List Char) : Prop :=
  ∃ fuel n, day_count fuel start_date end_date = some (some n)

/-- The program run on the two arguments terminates and prints `line`. -/
def mainPrints (arg1 arg2 line : List Char) : Prop :=
  ∃ fuel, runMain fuel arg1 arg2 = some (MainResult.printed line)

/-- Render a `(day, month, year)` triple the way `after`/`before` do. -/
def fmtT (t : Int × Int × Int) : List Char := fmtDate t.1 t.2.1 t.2.2

/-! ### Rendering / parsing bridge -/

lemma digitChar_facts {d : Nat} (hd : d < 10) :
    (Nat.digitChar d).isDigit = true ∧ (Nat.digitChar d).isWhitespace = false ∧
    Nat.digitChar d ≠ '-' ∧ Nat.digitChar d ≠ '+' ∧ Nat.digitChar d ≠ '/' ∧
    (Nat.digitChar d).toNat = 48 + d := by
  interval_cases d <;> exact ⟨by decide, by decide, by decide, by decide, by decide, by decide⟩

lemma natCharsAux_eq (n : Nat) : ∀ (fuel : Nat) (acc : List Char), n < fuel →
    natCharsAux fuel n acc = natChars n ++ acc := by
  induction n using Nat.strong_induction_on with
  | _ n ih =>
    intro fuel acc hf
    match fuel, hf with
    | f + 1, _ =>
      by_cases h10 : n < 10
      · simp only [natCharsAux, if_pos h10, natChars, if_pos h10, List.nil_append,
          List.cons_append]
      · have hdiv : n / 10 < n := Nat.div_lt_self (by omega) (by omega)
        simp only [natCharsAux, if_neg h10, natChars]
        rw [ih (n / 10) hdiv f (Nat.digitChar (n % 10) :: acc) (by omega),
          ih (n / 10) hdiv n (Nat.digitChar (n % 10) :: []) (by omega)]
        simp

lemma natChars_ne_nil (n : Nat) : natChars n ≠ [] := by
  by_cases h10 : n < 10
  · simp only [natChars, natCharsAux, if_pos h10]; simp
  · simp only [natChars, natCharsAux, if_neg h10]
    rw [natCharsAux_eq (n / 10) n _ (Nat.div_lt_self (by omega) (by omega))]
    simp

lemma natChars_mem {n : Nat} {c : Char} (hc : c ∈ natChars n) :
    ∃ d, d < 10 ∧ c = Nat.digitChar d := by
  induction n using Nat.strong_induction_on with
  | _ n ih =>
    by_cases h10 : n < 10
    · simp only [natChars, natCharsAux, if_pos h10, List.mem_singleton] at hc
      exact ⟨n, h10, hc⟩
    · simp only [natChars, natCharsAux, if_neg h10] at hc
      rw [natCharsAux_eq (n / 10) n _ (Nat.div_lt_self (by omega) (by omega))] at hc
      rcases List.mem_append.mp hc with h | h
      · exact ih (n / 10) (Nat.div_lt_self (by omega) (by omega)) h
      · simp only [List.mem_singleton] at h
        exact ⟨n % 10, Nat.mod_lt _ (by omega), h⟩

lemma natChars_foldl (n : Nat) : ∀ acc : Nat,
    (natChars n).foldl digitFold acc = acc * 10 ^ (natChars n).length + n := by
  induction n using Nat.strong_induction_on with
  | _ n ih =>
    intro acc
    by_cases h10 : n < 10
    · simp only [natChars, natCharsAux, if_pos h10, List.foldl_cons, List.foldl_nil,
        List.length_singleton, digitFold, (digitChar_facts h10).2.2.2.2.2]
      ring_nf
      omega
    · have hdiv : n / 10 < n := Nat.div_lt_self (by omega) (by omega)
      have hrw : natChars n = natChars (n / 10) ++ [Nat.digitChar (n % 10)] := by
        simp only [natChars, natCharsAux, if_neg h10]
        exact natCharsAux_eq (n / 10) n _ hdiv
      rw [hrw, List.foldl_append, ih (n / 10) hdiv acc]
      simp only [List.foldl_cons, List.foldl_nil, List.length_append,
        List.length_singleton, digitFold,
        (digitChar_facts (Nat.mod_lt n (show 0 < 10 by omega))).2.2.2.2.2]
      ring_nf
      omega

lemma pyIntAux_of_digits : ∀ (cs : List Char) (acc : Nat),
    (∀ c ∈ cs, c.isDigit = true) → pyIntAux acc cs = some (cs.foldl digitFold acc) := by
  intro cs
  induction cs with
  | nil => intro acc _; rfl
  | cons c cs ih =>
    intro acc hall
    have hc : c.isDigit = true := hall c (by simp)
    rw [show pyIntAux acc (c :: cs) = pyIntAux (digitFold acc c) cs by
        rw [pyIntAux.eq_def]
        simp [hc, digitFold],
      List.foldl_cons]
    exact ih (digitFold acc c) (fun x hx => hall x (by simp [hx]))

lemma pyIntDigits_of_digits {cs : List Char} (hne : cs ≠ [])
    (hall : ∀ c ∈ cs, c.isDigit = true) :
    pyIntDigits cs = some (cs.foldl digitFold 0) := by
  match cs, hne with
  | c :: cs, _ =>
    have hc : c.isDigit = true := hall c (by simp)
    simp only [pyIntDigits, if_pos hc, List.foldl_cons]
    rw [pyIntAux_of_digits cs _ (fun x hx => hall x (by simp [hx]))]
    simp [digitFold]

lemma dropWhile_eq_self_of_none {p : Char → Bool} {l : List Char}
    (h : ∀ c ∈ l, p c = false) : l.dropWhile p = l := by
  cases l with
  | nil => rfl
  | cons c cs => simp [List.dropWhile_cons, h c (by simp)]

lemma trimWs_eq_self {l : List Char} (h : ∀ c ∈ l, c.isWhitespace = false) :
    trimWs l = l := by
  unfold trimWs
  rw [dropWhile_eq_self_of_none h,
    dropWhile_eq_self_of_none (fun c hc => h c (List.mem_reverse.mp hc)),
    List.reverse_reverse]

lemma pyInt_cons {c : Char} {rest : List Char}
    (h : trimWs (c :: rest) = c :: rest) :
    pyInt (c :: rest) =
      if c = '-' then (pyIntDigits rest).map (fun n => -(n : Int))
      else if c = '+' then (pyIntDigits rest).map (fun n => (n : Int))
      else (pyIntDigits (c :: rest)).map (fun n => (n : Int)) := by
  unfold pyInt
  rw [h]

lemma pyInt_of_digitList {cs : List Char}
    (hd : ∀ c ∈ cs, ∃ d, d < 10 ∧ c = Nat.digitChar d) (hne : cs ≠ []) :
    pyInt cs = some ((cs.foldl digitFold 0 : Nat) : Int) := by
  have hdig : ∀ c ∈ cs, c.isDigit = true := by
    intro c hc
    obtain ⟨d, hd10, rfl⟩ := hd c hc
    exact (digitChar_facts hd10).1
  have hws : ∀ c ∈ cs, c.isWhitespace = false := by
    intro c hc
    obtain ⟨d, hd10, rfl⟩ := hd c hc
    exact (digitChar_facts hd10).2.1
  match cs, hne with
  | c :: rest, _ =>
    obtain ⟨d, hd10, hc⟩ := hd c (by simp)
    rw [pyInt_cons (trimWs_eq_self hws),
      if_neg (hc ▸ (digitChar_facts hd10).2.2.1),
      if_neg (hc ▸ (digitChar_facts hd10).2.2.2.1),
      pyIntDigits_of_digits (by simp) hdig]
    rfl

lemma natChars_foldl_zero (n : Nat) : (natChars n).foldl digitFold 0 = n := by
  rw [natChars_foldl n 0]; ring

lemma pyInt_natChars (n : Nat) : pyInt (natChars n) = some (n : Int) := by
  rw [pyInt_of_digitList (fun c hc => natChars_mem hc) (natChars_ne_nil n),
    natChars_foldl_zero]

/-- Every character of the width-2 padding of a nonnegative integer is a
decimal digit. -/
lemma pad2_mem {m : Int} (hm : 0 ≤ m) {c : Char} (hc : c ∈ pad2 m) :
    ∃ d, d < 10 ∧ c = Nat.digitChar d := by
  simp only [pad2, intChars, if_neg (by omega : ¬ m < 0)] at hc
  split at hc
  · rcases List.mem_cons.mp hc with h | h
    · exact ⟨0, by omega, by simpa using h⟩
    · exact natChars_mem h
  · exact natChars_mem hc

lemma intChars_ne_nil (m : Int) : intChars m ≠ [] := by
  unfold intChars
  split
  · simp
  · exact natChars_ne_nil _

lemma pad2_ne_nil (m : Int) : pad2 m ≠ [] := by
  show (if (intChars m).length < 2 then '0' :: intChars m else intChars m) ≠ []
  split
  · simp
  · exact intChars_ne_nil m

lemma pyInt_pad2 {m : Int} (hm : 0 ≤ m) : pyInt (pad2 m) = some m := by
  rw [pyInt_of_digitList (fun c hc => pad2_mem hm hc) (pad2_ne_nil m)]
  have hint : intChars m = natChars m.toNat := by
    unfold intChars
    rw [if_neg (by omega : ¬ m < 0)]
  have hfold : (pad2 m).foldl digitFold 0 = m.toNat := by
    show ((if (intChars m).length < 2 then '0' :: intChars m
      else intChars m).foldl digitFold 0) = m.toNat
    split
    · rw [List.foldl_cons, show digitFold 0 '0' = 0 from by decide, hint,
        natChars_foldl_zero]
    · rw [hint, natChars_foldl_zero]
  rw [hfold, Int.toNat_of_nonneg hm]

lemma splitOnChar_of_not_mem {sep : Char} : ∀ {xs : List Char}, sep ∉ xs →
    splitOnChar sep xs = [xs] := by
  intro xs
  induction xs with
  | nil => intro _; rfl
  | cons c cs ih =>
    intro h
    have hcs : sep ∉ cs := fun hm => h (by simp [hm])
    have hc : ¬ c = sep := fun he => h (by simp [he])
    simp only [splitOnChar, if_neg hc, ih hcs]

lemma splitOnChar_append {sep : Char} : ∀ {xs : List Char} (ys : List Char),
    sep ∉ xs → splitOnChar sep (xs ++ sep :: ys) = xs :: splitOnChar sep ys := by
  intro xs
  induction xs with
  | nil =>
    intro ys _
    simp [splitOnChar]
  | cons c cs ih =>
    intro ys h
    have hcs : sep ∉ cs := fun hm => h (by simp [hm])
    have hc : ¬ c = sep := fun he => h (by simp [he])
    simp only [List.cons_append, splitOnChar, if_neg hc, List.append_eq]
    rw [ih ys hcs]

/-- Characters appearing in a rendered date string: decimal digits and the
dash separator only. -/
lemma fmtDate_mem {d m y : Int} (hd : 0 ≤ d) (hm : 0 ≤ m) (hy : 0 ≤ y)
    {c : Char} (hc : c ∈ fmtDate d m y) :
    c = '-' ∨ ∃ k, k < 10 ∧ c = Nat.digitChar k := by
  simp only [fmtDate, intChars, if_neg (by omega : ¬ y < 0), List.mem_append,
    List.mem_cons] at hc
  rcases hc with h | h | h | h | h
  · exact Or.inr (natChars_mem h)
  · exact Or.inl h
  · exact Or.inr (pad2_mem hm h)
  · exact Or.inl h
  · exact Or.inr (pad2_mem hd h)

/-- Parsing inverts rendering on nonnegative fields. -/
lemma parse_fmtDate {d m y : Int} (hd : 0 ≤ d) (hm : 0 ≤ m) (hy : 0 ≤ y) :
    parse_date (fmtDate d m y) = some (d, m, y) := by
  have hyc : ∀ c ∈ intChars y, ∃ k, k < 10 ∧ c = Nat.digitChar k := by
    intro c hc
    simp only [intChars, if_neg (by omega : ¬ y < 0)] at hc
    exact natChars_mem hc
  have hslash : '/' ∉ fmtDate d m y := by
    intro hmem
    rcases fmtDate_mem hd hm hy hmem with h | ⟨k, hk, h⟩
    · exact absurd h (by decide)
    · exact absurd h.symm (digitChar_facts hk).2.2.2.2.1
  have hym : '-' ∉ intChars y := by
    intro hmem
    obtain ⟨k, hk, h⟩ := hyc _ hmem
    exact absurd h.symm (digitChar_facts hk).2.2.1
  have hmm : '-' ∉ pad2 m := by
    intro hmem
    obtain ⟨k, hk, h⟩ := pad2_mem hm hmem
    exact absurd h.symm (digitChar_facts hk).2.2.1
  have hdm : '-' ∉ pad2 d := by
    intro hmem
    obtain ⟨k, hk, h⟩ := pad2_mem hd hmem
    exact absurd h.symm (digitChar_facts hk).2.2.1
  have hdash : '-' ∈ fmtDate d m y := by
    simp [fmtDate]
  unfold parse_date
  rw [if_neg (by simpa using hslash), if_pos (by simpa using hdash)]
  have hsplit : splitOnChar '-' (fmtDate d m y) = [intChars y, pad2 m, pad2 d] := by
    unfold fmtDate
    rw [splitOnChar_append _ hym, splitOnChar_append _ hmm,
      splitOnChar_of_not_mem hdm]
  rw [hsplit]
  have hpy : pyInt (intChars y) = some y := by
    simp only [intChars, if_neg (by omega : ¬ y < 0)]
    rw [pyInt_natChars, Int.toNat_of_nonneg hy]
  simp [hpy, pyInt_pad2 hm, pyInt_pad2 hd]

/-! ### Calendar arithmetic on triples -/

lemma parse_fmtT {t : Int × Int × Int} (hd : 0 ≤ t.1) (hm : 0 ≤ t.2.1)
    (hy : 0 ≤ t.2.2) : parse_date (fmtT t) = some t :=
  parse_fmtDate hd hm hy

lemma mon_max_bounds (m y : Int) : 28 ≤ mon_max m y ∧ mon_max m y ≤ 31 := by
  unfold mon_max
  split_ifs <;> omega

lemma mon_max_twelve (y : Int) : mon_max 12 y = 31 := by
  unfold mon_max
  norm_num

lemma leap_year_iff (y : Int) :
    leap_year y = true ↔ (y % 4 = 0 ∧ (y % 100 ≠ 0 ∨ y % 400 = 0)) := by
  unfold leap_year
  simp [Bool.and_eq_true, Bool.or_eq_true, beq_iff_eq, bne_iff_ne]

lemma leap_delta (y : Int) :
    (if leap_year y then (1 : Int) else 0) =
      y / 4 - (y - 1) / 4 - (y / 100 - (y - 1) / 100) +
        (y / 400 - (y - 1) / 400) := by
  split_ifs with h
  · rw [leap_year_iff] at h
    omega
  · rw [leap_year_iff] at h
    push_neg at h
    omega

lemma cumDays_nonneg {m : Int} (h1 : 1 ≤ m) (h2 : m ≤ 12) (y : Int) :
    0 ≤ cumDays y m := by
  interval_cases m <;>
    rcases Bool.eq_false_or_eq_true (leap_year y) with hl | hl <;>
      simp [cumDays, hl]

lemma cumDays_step {m : Int} (h1 : 1 ≤ m) (h11 : m ≤ 11) (y : Int) :
    cumDays y (m + 1) = cumDays y m + mon_max m y := by
  interval_cases m <;>
    rcases Bool.eq_false_or_eq_true (leap_year y) with hl | hl <;>
      simp [cumDays, mon_max, hl]

lemma cumDays_ge {m m' : Int} (h1 : 1 ≤ m) (hlt : m < m') (h12 : m' ≤ 12)
    (y : Int) : cumDays y m + mon_max m y ≤ cumDays y m' := by
  have key : ∀ n : Int, m + 1 ≤ n → n ≤ 12 →
      cumDays y m + mon_max m y ≤ cumDays y n := by
    refine Int.le_induction ?_ ?_
    · intro _
      rw [cumDays_step h1 (by omega) y]
    · intro k hk ih hk12
      have hle : cumDays y m + mon_max m y ≤ cumDays y k := ih (by omega)
      rw [cumDays_step (by omega) (by omega) y]
      have := (mon_max_bounds k y).1
      omega
  exact key m' (by omega) h12

lemma cumDays_one (y : Int) : cumDays y 1 = 0 := by
  unfold cumDays
  norm_num

lemma cumDays_twelve (y : Int) :
    cumDays y 12 = (if leap_year y then (1 : Int) else 0) + 334 := by
  unfold cumDays
  norm_num

lemma nextT_roll_year {d m y : Int} (h1 : d + 1 > mon_max m y)
    (h2 : m + 1 > 12) : nextT (d, m, y) = (1, 1, y + 1) := by
  show (if d + 1 > mon_max m y then
      if m + 1 > 12 then ((1 : Int), (1 : Int), y + 1) else (1, m + 1, y)
    else (d + 1, m, y)) = (1, 1, y + 1)
  rw [if_pos h1, if_pos h2]

lemma nextT_roll_month {d m y : Int} (h1 : d + 1 > mon_max m y)
    (h2 : ¬ m + 1 > 12) : nextT (d, m, y) = (1, m + 1, y) := by
  show (if d + 1 > mon_max m y then
      if m + 1 > 12 then ((1 : Int), (1 : Int), y + 1) else (1, m + 1, y)
    else (d + 1, m, y)) = (1, m + 1, y)
  rw [if_pos h1, if_neg h2]

lemma nextT_plain {d m y : Int} (h1 : ¬ d + 1 > mon_max m y) :
    nextT (d, m, y) = (d + 1, m, y) := by
  show (if d + 1 > mon_max m y then
      if m + 1 > 12 then ((1 : Int), (1 : Int), y + 1) else (1, m + 1, y)
    else (d + 1, m, y)) = (d + 1, m, y)
  rw [if_neg h1]

lemma prevT_roll_year {d m y : Int} (h1 : d - 1 < 1) (h2 : m - 1 < 1) :
    prevT (d, m, y) = (mon_max 12 (y - 1), 12, y - 1) := by
  show (if d - 1 < 1 then
      if m - 1 < 1 then (mon_max 12 (y - 1), (12 : Int), y - 1)
      else (mon_max (m - 1) y, m - 1, y)
    else (d - 1, m, y)) = (mon_max 12 (y - 1), 12, y - 1)
  rw [if_pos h1, if_pos h2]

lemma prevT_roll_month {d m y : Int} (h1 : d - 1 < 1) (h2 : ¬ m - 1 < 1) :
    prevT (d, m, y) = (mon_max (m - 1) y, m - 1, y) := by
  show (if d - 1 < 1 then
      if m - 1 < 1 then (mon_max 12 (y - 1), (12 : Int), y - 1)
      else (mon_max (m - 1) y, m - 1, y)
    else (d - 1, m, y)) = (mon_max (m - 1) y, m - 1, y)
  rw [if_pos h1, if_neg h2]

lemma prevT_plain {d m y : Int} (h1 : ¬ d - 1 < 1) :
    prevT (d, m, y) = (d - 1, m, y) := by
  show (if d - 1 < 1 then
      if m - 1 < 1 then (mon_max 12 (y - 1), (12 : Int), y - 1)
      else (mon_max (m - 1) y, m - 1, y)
    else (d - 1, m, y)) = (d - 1, m, y)
  rw [if_neg h1]

/-- Stepping forward with `nextT` preserves validity and never decreases the year. -/
lemma nextT_valid {d m y : Int} (h : validT (d, m, y)) :
    validT (nextT (d, m, y)) ∧ y ≤ (nextT (d, m, y)).2.2 := by
  obtain ⟨hm1, hm2, hd1, hd2⟩ := h
  by_cases h1 : d + 1 > mon_max m y
  · by_cases h2 : m + 1 > 12
    · rw [nextT_roll_year h1 h2]
      have := (mon_max_bounds 1 (y + 1)).1
      exact ⟨⟨by omega, by omega, by omega, by omega⟩, by
        show y ≤ y + 1
        omega⟩
    · rw [nextT_roll_month h1 h2]
      have := (mon_max_bounds (m + 1) y).1
      exact ⟨⟨by omega, by omega, by omega, by omega⟩, by
        show y ≤ y
        omega⟩
  · rw [nextT_plain h1]
    exact ⟨⟨by omega, by omega, by omega, by omega⟩, by
      show y ≤ y
      omega⟩

/-- Stepping backward with `prevT` preserves validity and changes the year by at most one
downward. -/
lemma prevT_valid {d m y : Int} (h : validT (d, m, y)) :
    validT (prevT (d, m, y)) ∧ y - 1 ≤ (prevT (d, m, y)).2.2 ∧
      (prevT (d, m, y)).2.2 ≤ y := by
  obtain ⟨hm1, hm2, hd1, hd2⟩ := h
  by_cases h1 : d - 1 < 1
  · by_cases h2 : m - 1 < 1
    · rw [prevT_roll_year h1 h2]
      have := (mon_max_bounds 12 (y - 1)).1
      exact ⟨⟨by omega, by omega, by omega, by omega⟩, by
        show y - 1 ≤ y - 1
        omega, by
        show y - 1 ≤ y
        omega⟩
    · rw [prevT_roll_month h1 h2]
      have := (mon_max_bounds (m - 1) y).1
      exact ⟨⟨by omega, by omega, by omega, by omega⟩, by
        show y - 1 ≤ y
        omega, by
        show y ≤ y
        omega⟩
  · rw [prevT_plain h1]
    exact ⟨⟨by omega, by omega, by omega, by omega⟩, by
      show y - 1 ≤ y
      omega, by
      show y ≤ y
      omega⟩

/-- The two steppers are mutual inverses on valid dates (triple level). -/
lemma prevT_nextT {t : Int × Int × Int} (h : validT t) : prevT (nextT t) = t := by
  obtain ⟨d, m, y⟩ := t
  obtain ⟨hm1, hm2, hd1, hd2⟩ := h
  by_cases h1 : d + 1 > mon_max m y
  · by_cases h2 : m + 1 > 12
    · have hm12 : m = 12 := by omega
      subst hm12
      rw [mon_max_twelve] at h1 hd2
      rw [nextT_roll_year (by rw [mon_max_twelve]; omega) h2,
        prevT_roll_year (by omega) (by omega),
        show y + 1 - 1 = y from by ring, mon_max_twelve]
      have hd31 : d = 31 := by omega
      subst hd31
      rfl
    · rw [nextT_roll_month h1 h2, prevT_roll_month (by omega) (by omega),
        show m + 1 - 1 = m from by ring]
      have hdmax : d = mon_max m y := by omega
      subst hdmax
      rfl
  · rw [nextT_plain h1, prevT_plain (by omega)]
    refine Prod.ext ?_ rfl
    show d + 1 - 1 = d
    omega

lemma nextT_prevT {t : Int × Int × Int} (h : validT t) : nextT (prevT t) = t := by
  obtain ⟨d, m, y⟩ := t
  obtain ⟨hm1, hm2, hd1, hd2⟩ := h
  by_cases h1 : d - 1 < 1
  · by_cases h2 : m - 1 < 1
    · have h31 := mon_max_twelve (y - 1)
      rw [prevT_roll_year h1 h2,
        nextT_roll_year (by omega) (by omega),
        show y - 1 + 1 = y from by ring]
      have hd' : d = 1 := by omega
      have hm' : m = 1 := by omega
      subst hd'
      subst hm'
      rfl
    · have hmb := (mon_max_bounds (m - 1) y).1
      rw [prevT_roll_month h1 h2,
        nextT_roll_month (by omega) (by omega),
        show m - 1 + 1 = m from by ring]
      have hd' : d = 1 := by omega
      subst hd'
      rfl
  · rw [prevT_plain h1, nextT_plain (by omega)]
    refine Prod.ext ?_ rfl
    show d - 1 + 1 = d
    omega

lemma dayNum_mk (d m y : Int) :
    dayNum (d, m, y) =
      365 * y + (y - 1) / 4 - (y - 1) / 100 + (y - 1) / 400 +
        cumDays y m + d := rfl

/-- Stepping forward adds exactly one to the linear day number. -/
lemma dayNum_nextT {t : Int × Int × Int} (h : validT t) :
    dayNum (nextT t) = dayNum t + 1 := by
  obtain ⟨d, m, y⟩ := t
  obtain ⟨hm1, hm2, hd1, hd2⟩ := h
  by_cases h1 : d + 1 > mon_max m y
  · by_cases h2 : m + 1 > 12
    · have hm12 : m = 12 := by omega
      subst hm12
      rw [mon_max_twelve] at h1 hd2
      rw [nextT_roll_year (by rw [mon_max_twelve]; omega) h2,
        dayNum_mk, dayNum_mk, cumDays_one, cumDays_twelve, leap_delta]
      omega
    · rw [nextT_roll_month h1 h2, dayNum_mk, dayNum_mk,
        cumDays_step hm1 (by omega) y]
      omega
  · rw [nextT_plain h1, dayNum_mk, dayNum_mk]
    omega

lemma iterN_facts : ∀ (k : Nat) (t : Int × Int × Int), validT t →
    validT (iterN k t) ∧ t.2.2 ≤ (iterN k t).2.2 ∧
      dayNum (iterN k t) = dayNum t + k := by
  intro k
  induction k with
  | zero => intro t h; exact ⟨h, le_refl _, by simp [iterN]⟩
  | succ k ih =>
    intro t h
    obtain ⟨d, m, y⟩ := t
    have hnv := nextT_valid h
    obtain ⟨hv, hy, hn⟩ := ih (nextT (d, m, y)) hnv.1
    have hstep : iterN (k + 1) (d, m, y) = iterN k (nextT (d, m, y)) := rfl
    refine ⟨?_, ?_, ?_⟩
    · rw [hstep]
      exact hv
    · rw [hstep]
      exact le_trans hnv.2 hy
    · rw [hstep, hn, dayNum_nextT h]
      push_cast
      ring

/-- Year-start day numbers grow with the year. -/
lemma yearFn_mono {y y' : Int} (hle : y ≤ y') :
    365 * y + (y - 1) / 4 - (y - 1) / 100 + (y - 1) / 400 ≤
      365 * y' + (y' - 1) / 4 - (y' - 1) / 100 + (y' - 1) / 400 := by
  refine @Int.le_induction
    (fun z => 365 * y + (y - 1) / 4 - (y - 1) / 100 + (y - 1) / 400 ≤
      365 * z + (z - 1) / 4 - (z - 1) / 100 + (z - 1) / 400)
    y ?_ ?_ y' hle
  · omega
  · intro n hn ih
    omega

lemma validT_3112 (y : Int) : validT (31, 12, y) := by
  refine ⟨by omega, by omega, by omega, ?_⟩
  rw [mon_max_twelve]

lemma dayNum_year_lb {d m y : Int} (h : validT (d, m, y)) :
    dayNum (1, 1, y) ≤ dayNum (d, m, y) := by
  obtain ⟨hm1, hm2, hd1, hd2⟩ := h
  have hc := cumDays_nonneg hm1 hm2 y
  rw [dayNum_mk, dayNum_mk, cumDays_one]
  omega

lemma dayNum_year_ub {d m y : Int} (h : validT (d, m, y)) :
    dayNum (d, m, y) ≤ dayNum (31, 12, y) := by
  obtain ⟨hm1, hm2, hd1, hd2⟩ := h
  rw [dayNum_mk, dayNum_mk]
  by_cases h12 : m = 12
  · subst h12
    rw [mon_max_twelve] at hd2
    omega
  · have := cumDays_ge hm1 (by omega : m < 12) (by omega) y
    omega

/-- Strict chronological order strictly increases the linear day number
on valid dates. -/
lemma dayNum_lt_of_chronLt {t t' : Int × Int × Int} (h : validT t)
    (h' : validT t') (hlt : chronLt t t') : dayNum t < dayNum t' := by
  obtain ⟨d, m, y⟩ := t
  obtain ⟨d', m', y'⟩ := t'
  rcases hlt with hy | ⟨hy, hm | ⟨hm, hd⟩⟩
  · have h1 : dayNum (d, m, y) ≤ dayNum (31, 12, y) := dayNum_year_ub h
    have h2 : dayNum (1, 1, y + 1) = dayNum (31, 12, y) + 1 := by
      rw [← dayNum_nextT (validT_3112 y),
        nextT_roll_year (by rw [mon_max_twelve]; omega) (by omega)]
    have h3 : dayNum (1, 1, y + 1) ≤ dayNum (1, 1, y') := by
      rw [dayNum_mk, dayNum_mk, cumDays_one, cumDays_one]
      have := yearFn_mono (show y + 1 ≤ y' from by omega)
      omega
    have h4 : dayNum (1, 1, y') ≤ dayNum (d', m', y') := dayNum_year_lb h'
    omega
  · subst hy
    obtain ⟨hm1, hm2, hd1, hd2⟩ := h
    obtain ⟨hm1', hm2', hd1', hd2'⟩ := h'
    have := cumDays_ge hm1 hm hm2' y
    rw [dayNum_mk, dayNum_mk]
    omega
  · subst hy
    subst hm
    rw [dayNum_mk, dayNum_mk]
    omega

lemma chron_total (a b : Int × Int × Int) : chronLe a b ∨ chronLt b a := by
  obtain ⟨d1, m1, y1⟩ := a
  obtain ⟨d2, m2, y2⟩ := b
  show ((y1 < y2 ∨ (y1 = y2 ∧ (m1 < m2 ∨ (m1 = m2 ∧ d1 < d2)))) ∨
      (d1, m1, y1) = (d2, m2, y2)) ∨
    (y2 < y1 ∨ (y2 = y1 ∧ (m2 < m1 ∨ (m2 = m1 ∧ d2 < d1))))
  rcases eq_or_ne y1 y2 with hy | hy
  · subst hy
    rcases eq_or_ne m1 m2 with hm | hm
    · subst hm
      rcases eq_or_ne d1 d2 with hd | hd
      · subst hd
        exact Or.inl (Or.inr rfl)
      · rcases lt_or_gt_of_ne hd with hd' | hd'
        · exact Or.inl (Or.inl (Or.inr ⟨rfl, Or.inr ⟨rfl, hd'⟩⟩))
        · exact Or.inr (Or.inr ⟨rfl, Or.inr ⟨rfl, hd'⟩⟩)
    · rcases lt_or_gt_of_ne hm with hm' | hm'
      · exact Or.inl (Or.inl (Or.inr ⟨rfl, Or.inl hm'⟩))
      · exact Or.inr (Or.inr ⟨rfl, Or.inl hm'⟩)
  · rcases lt_or_gt_of_ne hy with hy' | hy'
    · exact Or.inl (Or.inl (Or.inl hy'))
    · exact Or.inr (Or.inl hy')

/-- From a valid date one reaches any chronologically later valid date by
iterating `nextT` for exactly the day-number difference. -/
lemma iterN_reach : ∀ (n : Nat) (t1 t2 : Int × Int × Int), validT t1 →
    validT t2 → chronLe t1 t2 → dayNum t2 - dayNum t1 = n →
    iterN n t1 = t2 := by
  intro n
  induction n with
  | zero =>
    intro t1 t2 h1 h2 hle hdist
    rcases hle with hlt | heq
    · have := dayNum_lt_of_chronLt h1 h2 hlt
      omega
    · subst heq
      rfl
  | succ n ih =>
    intro t1 t2 h1 h2 hle hdist
    rcases hle with hlt | heq
    · have hv1 : validT (nextT t1) := (nextT_valid h1).1
      have hnum : dayNum (nextT t1) = dayNum t1 + 1 := dayNum_nextT h1
      have hle' : chronLe (nextT t1) t2 := by
        rcases chron_total (nextT t1) t2 with h | h
        · exact h
        · have := dayNum_lt_of_chronLt h2 hv1 h
          omega
      have hdist' : dayNum t2 - dayNum (nextT t1) = n := by
        rw [hnum]
        omega
      show iterN n (nextT t1) = t2
      exact ih (nextT t1) t2 hv1 h2 hle' hdist'
    · subst heq
      omega

/-! ### String-level refinement of the steppers and the weekday function -/

lemma after_parse {s : List Char} {d m y : Int}
    (h : parse_date s = some (d, m, y)) :
    after s = some (fmtT (nextT (d, m, y))) := by
  unfold after
  rw [h]
  show (if d + 1 > mon_max m y then
      if m + 1 > 12 then some (fmtDate 1 1 (y + 1))
      else some (fmtDate 1 (m + 1) y)
    else some (fmtDate (d + 1) m y)) = some (fmtT (nextT (d, m, y)))
  by_cases h1 : d + 1 > mon_max m y
  · by_cases h2 : m + 1 > 12
    · rw [if_pos h1, if_pos h2, nextT_roll_year h1 h2]
      rfl
    · rw [if_pos h1, if_neg h2, nextT_roll_month h1 h2]
      rfl
  · rw [if_neg h1, nextT_plain h1]
    rfl

lemma before_parse {s : List Char} {d m y : Int}
    (h : parse_date s = some (d, m, y)) :
    before s = some (fmtT (prevT (d, m, y))) := by
  unfold before
  rw [h]
  show (if d - 1 < 1 then
      if m - 1 < 1 then some (fmtDate (mon_max 12 (y - 1)) 12 (y - 1))
      else some (fmtDate (mon_max (m - 1) y) (m - 1) y)
    else some (fmtDate (d - 1) m y)) = some (fmtT (prevT (d, m, y)))
  by_cases h1 : d - 1 < 1
  · by_cases h2 : m - 1 < 1
    · rw [if_pos h1, if_pos h2, prevT_roll_year h1 h2]
      rfl
    · rw [if_pos h1, if_neg h2, prevT_roll_month h1 h2]
      rfl
  · rw [if_neg h1, prevT_plain h1]
    rfl

lemma dayIdx_mk (d m y : Int) :
    dayIdx (d, m, y) =
      ((if m < 3 then y - 1 else y) + (if m < 3 then y - 1 else y) / 4 -
        (if m < 3 then y - 1 else y) / 100 + (if m < 3 then y - 1 else y) / 400 +
        (offset m).getD 0 + d) % 7 := rfl

lemma dayIdx_bounds (t : Int × Int × Int) : 0 ≤ dayIdx t ∧ dayIdx t < 7 := by
  obtain ⟨d, m, y⟩ := t
  rw [dayIdx_mk]
  exact ⟨Int.emod_nonneg _ (by norm_num), Int.emod_lt_of_pos _ (by norm_num)⟩

/-- On a parsed date with an in-range month, `day_of_week` looks up the
weekday table at the index computed by `dayIdx`. -/
lemma day_of_week_parse {s : List Char} {d m y : Int}
    (h : parse_date s = some (d, m, y)) (hm1 : 1 ≤ m) (hm2 : m ≤ 12) :
    day_of_week s = days.get? (dayIdx (d, m, y)).toNat := by
  unfold day_of_week
  rw [h]
  interval_cases m <;> rfl

/-- Evaluation of `day_of_week` succeeds on any parsed date with an in-range month, and
its answer is `Sat`/`Sun` exactly when `isWeekendT` says so. -/
lemma day_of_week_some {s : List Char} {d m y : Int}
    (h : parse_date s = some (d, m, y)) (hm1 : 1 ≤ m) (hm2 : m ≤ 12) :
    ∃ w, day_of_week s = some w ∧
      ((w ∈ (["Sat", "Sun"] : List String)) ↔ isWeekendT (d, m, y) = true) := by
  rw [day_of_week_parse h hm1 hm2]
  have hb := dayIdx_bounds (d, m, y)
  obtain ⟨k, hk7, hkeq⟩ : ∃ k, k < 7 ∧ (dayIdx (d, m, y)).toNat = k :=
    ⟨_, by omega, rfl⟩
  have hdi : dayIdx (d, m, y) = (k : Int) := by omega
  rw [hkeq]
  have hW : ∀ b : Bool, isWeekendT (d, m, y) = b ↔
      (((k : Int) == 0 || (k : Int) == 6) = b) := by
    intro b
    unfold isWeekendT
    rw [hdi]
  interval_cases k
  · exact ⟨"Sun", rfl, ⟨fun _ => (hW true).mpr (by decide), fun _ => by decide⟩⟩
  · exact ⟨"Mon", rfl, ⟨fun hmem => absurd hmem (by decide),
      fun hwk => absurd ((hW true).mp hwk) (by decide)⟩⟩
  · exact ⟨"Tue", rfl, ⟨fun hmem => absurd hmem (by decide),
      fun hwk => absurd ((hW true).mp hwk) (by decide)⟩⟩
  · exact ⟨"Wed", rfl, ⟨fun hmem => absurd hmem (by decide),
      fun hwk => absurd ((hW true).mp hwk) (by decide)⟩⟩
  · exact ⟨"Thu", rfl, ⟨fun hmem => absurd hmem (by decide),
      fun hwk => absurd ((hW true).mp hwk) (by decide)⟩⟩
  · exact ⟨"Fri", rfl, ⟨fun hmem => absurd hmem (by decide),
      fun hwk => absurd ((hW true).mp hwk) (by decide)⟩⟩
  · exact ⟨"Sat", rfl, ⟨fun _ => (hW true).mpr (by decide), fun _ => by decide⟩⟩

/-! ### The counting loop -/

lemma fmtT_parse {t : Int × Int × Int} (hv : validT t) (hy : 0 ≤ t.2.2) :
    parse_date (fmtT t) = some t := by
  obtain ⟨d, m, y⟩ := t
  obtain ⟨hm1, hm2, hd1, hd2⟩ := hv
  have hy' : (0 : Int) ≤ y := hy
  exact @parse_fmtDate d m y (by omega) (by omega) hy'

lemma day_countLoop_self (fuel : Nat) (s : List Char) (acc : Int) :
    day_countLoop fuel s s acc = some (some acc) := by
  cases fuel <;> simp [day_countLoop]

/-- One iteration of the `while` loop. -/
lemma day_countLoop_step {fuel : Nat} {s s' e : List Char} {acc : Int}
    {w : String} (hne : s ≠ e) (hw : day_of_week s = some w)
    (hafter : after s = some s') :
    day_countLoop (fuel + 1) s e acc =
      day_countLoop fuel s' e
        (if w ∈ (["Sat", "Sun"] : List String) then acc + 1 else acc) := by
  simp only [day_countLoop]
  rw [if_neg hne, hw, hafter]

/-- If the end string is never a rendering of any date reachable from `t`,
the loop exhausts any amount of fuel: the program does not terminate. -/
lemma day_countLoop_noreach : ∀ (fuel : Nat) (t : Int × Int × Int)
    (e : List Char) (acc : Int), validT t → 1 ≤ t.2.2 →
    (∀ k, fmtT (iterN k t) ≠ e) →
    day_countLoop fuel (fmtT t) e acc = none := by
  intro fuel
  induction fuel with
  | zero =>
    intro t e acc hv hy hk
    have h0 : fmtT t ≠ e := hk 0
    simp only [day_countLoop]
    rw [if_neg h0]
  | succ fuel ih =>
    intro t e acc hv hy hk
    have h0 : fmtT t ≠ e := hk 0
    have hparse : parse_date (fmtT t) = some t := fmtT_parse hv (by omega)
    obtain ⟨hm1, hm2, hd1, hd2⟩ := hv
    obtain ⟨w, hw, hiff⟩ := day_of_week_some hparse hm1 hm2
    have hafter : after (fmtT t) = some (fmtT (nextT t)) := after_parse hparse
    rw [day_countLoop_step h0 hw hafter]
    have hv' : validT (nextT t) := (nextT_valid ⟨hm1, hm2, hd1, hd2⟩).1
    have hy' : 1 ≤ (nextT t).2.2 :=
      le_trans hy (nextT_valid ⟨hm1, hm2, hd1, hd2⟩).2
    exact ih (nextT t) e _ hv' hy' (fun k => hk (k + 1))

lemma dayList_snoc : ∀ (n : Nat) (t : Int × Int × Int),
    dayList (n + 1) t = dayList n t ++ [iterN n t] := by
  intro n
  induction n with
  | zero => intro t; rfl
  | succ n ih =>
    intro t
    show t :: dayList (n + 1) (nextT t) = (t :: dayList n (nextT t)) ++ [iterN (n + 1) t]
    rw [ih (nextT t), List.cons_append]
    rfl

/-- If the end string is the rendering of the date `n` days after `t`, the
loop exits after exactly `n` iterations having counted the weekend days
among the first `n` days. -/
lemma day_countLoop_count : ∀ (n : Nat) (t : Int × Int × Int) (acc : Int)
    (fuel : Nat), validT t → 1 ≤ t.2.2 → n ≤ fuel →
    day_countLoop fuel (fmtT t) (fmtT (iterN n t)) acc =
      some (some (acc + ((dayList n t).filter isWeekendT).length)) := by
  intro n
  induction n with
  | zero =>
    intro t acc fuel hv hy hf
    show day_countLoop fuel (fmtT t) (fmtT t) acc =
      some (some (acc + ((dayList 0 t).filter isWeekendT).length))
    rw [day_countLoop_self]
    simp [dayList]
  | succ n ih =>
    intro t acc fuel hv hy hf
    match fuel, hf with
    | f + 1, _ =>
      have hvi := iterN_facts (n + 1) t hv
      have hne : fmtT t ≠ fmtT (iterN (n + 1) t) := by
        intro heq
        have h1 : parse_date (fmtT t) = some t := fmtT_parse hv (by omega)
        have h2 : parse_date (fmtT (iterN (n + 1) t)) = some (iterN (n + 1) t) :=
          fmtT_parse hvi.1 (by omega)
        rw [heq, h2, Option.some.injEq] at h1
        have := hvi.2.2
        rw [h1] at this
        omega
      have hparse : parse_date (fmtT t) = some t := fmtT_parse hv (by omega)
      obtain ⟨hm1, hm2, hd1, hd2⟩ := hv
      obtain ⟨w, hw, hiff⟩ := day_of_week_some hparse hm1 hm2
      have hafter : after (fmtT t) = some (fmtT (nextT t)) := after_parse hparse
      rw [day_countLoop_step hne hw hafter]
      have hv' : validT (nextT t) := (nextT_valid ⟨hm1, hm2, hd1, hd2⟩).1
      have hy' : 1 ≤ (nextT t).2.2 :=
        le_trans hy (nextT_valid ⟨hm1, hm2, hd1, hd2⟩).2
      have hdl : dayList (n + 1) t = t :: dayList n (nextT t) := rfl
      by_cases hwt : isWeekendT t = true
      · rw [if_pos (hiff.mpr hwt)]
        refine (ih (nextT t) (acc + 1) f hv' hy' (by omega)).trans ?_
        rw [hdl, List.filter_cons, if_pos hwt]
        simp only [Option.some.injEq, List.length_cons]
        push_cast
        ring
      · have hneq : ¬ (w ∈ (["Sat", "Sun"] : List String)) :=
          fun hmem => hwt (hiff.mp hmem)
        have hfneq : ¬ (isWeekendT t = true) := hwt
        rw [if_neg hneq]
        refine (ih (nextT t) acc f hv' hy' (by omega)).trans ?_
        rw [hdl, List.filter_cons, if_neg hfneq]

lemma day_count_eq_none {fuel : Nat} {s e : List Char}
    (h : day_countLoop fuel s e 0 = none) : day_count fuel s e = none := by
  unfold day_count
  rw [h]

/-! ### Characterizations of the validator, the comparison and `day_count` -/

/-- The validator `valid_date` accepts exactly the parseable strings whose month and day
are in range. -/
lemma valid_date_iff (s : List Char) :
    valid_date s = true ↔ ∃ d m y, parse_date s = some (d, m, y) ∧
      1 ≤ m ∧ m ≤ 12 ∧ 1 ≤ d ∧ d ≤ mon_max m y := by
  unfold valid_date
  constructor
  · intro h
    match hp : parse_date s with
    | none => rw [hp] at h; exact absurd h (by simp)
    | some (d, m, y) =>
      rw [hp] at h
      have h' : (if m < 1 || m > 12 then false
          else if d < 1 || d > mon_max m y then false else true) = true := h
      refine ⟨d, m, y, rfl, ?_⟩
      by_cases h1 : (m < 1 || m > 12) = true
      · rw [if_pos h1] at h'
        exact absurd h' (by simp)
      · rw [if_neg h1] at h'
        by_cases h2 : (d < 1 || d > mon_max m y) = true
        · rw [if_pos h2] at h'
          exact absurd h' (by simp)
        · simp only [Bool.or_eq_true, decide_eq_true_eq, not_or, not_lt] at h1 h2
          omega
  · rintro ⟨d, m, y, hp, hm1, hm2, hd1, hd2⟩
    rw [hp]
    show (if m < 1 || m > 12 then false
      else if d < 1 || d > mon_max m y then false else true) = true
    rw [if_neg (by simp; omega), if_neg (by simp; omega)]

lemma valid_date_parse {s : List Char} (h : valid_date s = true) :
    ∃ t, parse_date s = some t ∧ validT t := by
  obtain ⟨d, m, y, hp, hm1, hm2, hd1, hd2⟩ := (valid_date_iff s).mp h
  exact ⟨(d, m, y), hp, hm1, hm2, hd1, hd2⟩

lemma date_compare_eq {s e : List Char} {t1 t2 : Int × Int × Int}
    (h1 : parse_date s = some t1) (h2 : parse_date e = some t2) :
    date_compare s e =
      if datetimeOK t1.1 t1.2.1 t1.2.2 && datetimeOK t2.1 t2.2.1 t2.2.2
      then some (lexLt3 t1 t2) else none := by
  unfold date_compare
  rw [h1, h2]
  rfl

lemma lexLt3_true {a b : Int × Int × Int} : lexLt3 a b = true ↔ chronLt a b := by
  unfold lexLt3
  exact decide_eq_true_iff

lemma lexLt3_false {a b : Int × Int × Int} : lexLt3 a b = false ↔ ¬ chronLt a b := by
  unfold lexLt3
  simp

lemma chronLt_asymm {a b : Int × Int × Int} (h : chronLt a b) : ¬ chronLt b a := by
  obtain ⟨d1, m1, y1⟩ := a
  obtain ⟨d2, m2, y2⟩ := b
  show ¬ (y2 < y1 ∨ (y2 = y1 ∧ (m2 < m1 ∨ (m2 = m1 ∧ d2 < d1))))
  have h' : y1 < y2 ∨ (y1 = y2 ∧ (m1 < m2 ∨ (m1 = m2 ∧ d1 < d2))) := h
  omega

lemma chronLt_irrefl (a : Int × Int × Int) : ¬ chronLt a a := by
  obtain ⟨d1, m1, y1⟩ := a
  show ¬ (y1 < y1 ∨ (y1 = y1 ∧ (m1 < m1 ∨ (m1 = m1 ∧ d1 < d1))))
  omega

/-- Rendered dates with nonnegative fields never contain a slash, so a
DD/MM/YYYY-shaped end date can never be reached by the loop. -/
lemma fmtT_no_slash {t : Int × Int × Int} (hv : validT t) (hy : 0 ≤ t.2.2) :
    '/' ∉ fmtT t := by
  obtain ⟨d, m, y⟩ := t
  obtain ⟨hm1, hm2, hd1, hd2⟩ := hv
  intro hmem
  rcases fmtDate_mem (show (0:Int) ≤ d from by omega)
      (show (0:Int) ≤ m from by omega) (show (0:Int) ≤ y from hy) hmem with
    h | ⟨k, hk, h⟩
  · exact absurd h (by decide)
  · exact absurd h.symm (digitChar_facts hk).2.2.2.2.1

/-- Divergence of the loop started on an arbitrary string: if no date
reachable from the parsed start renders equal to the end string, the loop
runs out of any fuel. -/
lemma day_countLoop_raw_noreach {t1 : Int × Int × Int} :
    ∀ (fuel : Nat) (s e : List Char) (acc : Int),
    parse_date s = some t1 → validT t1 → 1 ≤ t1.2.2 → s ≠ e →
    (∀ k, fmtT (iterN k (nextT t1)) ≠ e) →
    day_countLoop fuel s e acc = none := by
  intro fuel s e acc hp hv hy hne hk
  match fuel with
  | 0 =>
    simp only [day_countLoop]
    rw [if_neg hne]
  | f + 1 =>
    obtain ⟨d, m, y⟩ := t1
    obtain ⟨hm1, hm2, hd1, hd2⟩ := hv
    obtain ⟨w, hw, hiff⟩ := day_of_week_some hp hm1 hm2
    rw [day_countLoop_step hne hw (after_parse hp)]
    have hnv := nextT_valid (⟨hm1, hm2, hd1, hd2⟩ : validT (d, m, y))
    exact day_countLoop_noreach f (nextT (d, m, y)) e _ hnv.1
      (le_trans hy hnv.2) hk

/-- The loop started on an arbitrary string whose parsed date reaches the
(rendered) end date in `k + 1` steps counts the weekend days among those
days. -/
lemma day_countLoop_raw_count {t1 : Int × Int × Int} {k : Nat}
    {fuel : Nat} {s e : List Char}
    (hp : parse_date s = some t1) (hv : validT t1) (hy : 1 ≤ t1.2.2)
    (hne : s ≠ e) (he : e = fmtT (iterN (k + 1) t1)) (hfuel : k + 1 ≤ fuel) :
    day_countLoop fuel s e 0 =
      some (some ((((dayList (k + 1) t1).filter isWeekendT).length : Int))) := by
  match fuel, hfuel with
  | f + 1, _ =>
    obtain ⟨d, m, y⟩ := t1
    obtain ⟨hm1, hm2, hd1, hd2⟩ := hv
    obtain ⟨w, hw, hiff⟩ := day_of_week_some hp hm1 hm2
    rw [day_countLoop_step hne hw (after_parse hp), he]
    have hnv := nextT_valid (⟨hm1, hm2, hd1, hd2⟩ : validT (d, m, y))
    have hiter : iterN (k + 1) (d, m, y) = iterN k (nextT (d, m, y)) := rfl
    rw [hiter]
    have hdl : dayList (k + 1) (d, m, y) =
        (d, m, y) :: dayList k (nextT (d, m, y)) := rfl
    by_cases hwt : isWeekendT (d, m, y) = true
    · rw [if_pos (hiff.mpr hwt)]
      refine (day_countLoop_count k (nextT (d, m, y)) 1 f hnv.1
        (le_trans hy hnv.2) (by omega)).trans ?_
      rw [hdl, List.filter_cons, if_pos hwt]
      simp only [Option.some.injEq, List.length_cons]
      push_cast
      ring
    · have hneq : ¬ (w ∈ (["Sat", "Sun"] : List String)) :=
        fun hmem => hwt (hiff.mp hmem)
      rw [if_neg hneq]
      refine (day_countLoop_count k (nextT (d, m, y)) 0 f hnv.1
        (le_trans hy hnv.2) (by omega)).trans ?_
      rw [hdl, List.filter_cons, if_neg hwt]
      simp only [Option.some.injEq]
      ring

/-- Finishing step of `day_count`: add one when the end date itself is a
weekend day. -/
lemma day_count_eq {fuel : Nat} {s e : List Char} {c : Int}
    {t2 : Int × Int × Int} (hl : day_countLoop fuel s e 0 = some (some c))
    (hp2 : parse_date e = some t2) (hv2 : validT t2) :
    day_count fuel s e =
      some (some (c + (if isWeekendT t2 = true then 1 else 0))) := by
  obtain ⟨d, m, y⟩ := t2
  obtain ⟨hm1, hm2, hd1, hd2⟩ := hv2
  unfold day_count
  rw [hl]
  obtain ⟨w, hw, hiff⟩ := day_of_week_some hp2 hm1 hm2
  rw [hw]
  show some (some (if w ∈ (["Sat", "Sun"] : List String) then c + 1 else c)) =
    some (some (c + if isWeekendT (d, m, y) = true then 1 else 0))
  by_cases hwt : isWeekendT (d, m, y) = true
  · rw [if_pos (hiff.mpr hwt), if_pos hwt]
  · rw [if_neg (fun hmem => hwt (hiff.mp hmem)), if_neg hwt, add_zero]

lemma datetimeOK_iff (d m y : Int) : datetimeOK d m y = true ↔
    (1 ≤ y ∧ y ≤ 9999 ∧ 1 ≤ m ∧ m ≤ 12 ∧ 1 ≤ d ∧ d ≤ mon_max m y) := by
  unfold datetimeOK
  exact decide_eq_true_iff

lemma datetimeOK_validT {t : Int × Int × Int}
    (h : datetimeOK t.1 t.2.1 t.2.2 = true) :
    validT t ∧ 1 ≤ t.2.2 ∧ t.2.2 ≤ 9999 := by
  obtain ⟨d, m, y⟩ := t
  obtain ⟨h1, h2, h3, h4, h5, h6⟩ := (datetimeOK_iff d m y).mp h
  exact ⟨⟨h3, h4, h5, h6⟩, h1, h2⟩

/-- Master correctness statement for `day_count`: when the end string is
the canonical rendering of a valid date and the start parses to a valid
date that is not chronologically later (equal dates only as equal
strings), the walk terminates within the day difference and returns the
number of weekend days in the inclusive range. -/
lemma day_count_master {s e : List Char} {t1 t2 : Int × Int × Int}
    {fuel : Nat} (hp1 : parse_date s = some t1) (hv1 : validT t1)
    (hy1 : 1 ≤ t1.2.2) (hv2 : validT t2) (hy2 : 1 ≤ t2.2.2)
    (he : e = fmtT t2) (hord : chronLt t1 t2 ∨ s = e)
    (hfuel : (dayNum t2 - dayNum t1).toNat ≤ fuel) :
    day_count fuel s e =
      some (some (weekendCount ((dayNum t2 - dayNum t1).toNat + 1) t1)) := by
  have hp2 : parse_date e = some t2 := by
    rw [he]
    exact fmtT_parse hv2 (by omega)
  rcases hord with hlt | heq
  · have hstrict := dayNum_lt_of_chronLt hv1 hv2 hlt
    have hne : s ≠ e := by
      intro hseq
      rw [hseq, hp2, Option.some.injEq] at hp1
      rw [hp1] at hstrict
      omega
    obtain ⟨k, hk⟩ : ∃ k, (dayNum t2 - dayNum t1).toNat = k + 1 :=
      ⟨(dayNum t2 - dayNum t1).toNat - 1, by omega⟩
    have hreach : iterN ((dayNum t2 - dayNum t1).toNat) t1 = t2 :=
      iterN_reach _ t1 t2 hv1 hv2 (Or.inl hlt) (by omega)
    have he' : e = fmtT (iterN (k + 1) t1) := by
      rw [← hk, hreach, he]
    have hl := @day_countLoop_raw_count t1 k fuel s e hp1 hv1 hy1 hne he'
      (by omega)
    rw [day_count_eq hl hp2 hv2, hk]
    have hsn : dayList (k + 1 + 1) t1 = dayList (k + 1) t1 ++ [iterN (k + 1) t1] :=
      dayList_snoc (k + 1) t1
    have hit : iterN (k + 1) t1 = t2 := by rw [← hk, hreach]
    unfold weekendCount
    rw [hsn, hit, List.filter_append]
    by_cases hwt : isWeekendT t2 = true
    · rw [if_pos hwt]
      simp only [List.filter_cons, if_pos hwt, List.filter_nil,
        List.length_append, List.length_cons, List.length_nil,
        Option.some.injEq]
      push_cast
      ring
    · rw [if_neg hwt]
      simp only [List.filter_cons, if_neg hwt, List.filter_nil,
        List.length_append, List.length_nil, Option.some.injEq]
      push_cast
      ring
  · subst heq
    have ht : t1 = t2 := Option.some_inj.mp (hp1.symm.trans hp2)
    subst ht
    have hzero : (dayNum t1 - dayNum t1).toNat = 0 := by omega
    rw [day_count_eq (day_countLoop_self fuel s 0) hp2 hv2, hzero]
    unfold weekendCount
    by_cases hwt : isWeekendT t1 = true
    · rw [if_pos hwt]
      simp only [dayList, List.filter_cons, if_pos hwt, List.filter_nil,
        List.length_cons, List.length_nil, Option.some.injEq]
      ring
    · rw [if_neg hwt]
      simp only [dayList, List.filter_cons, if_neg hwt, List.filter_nil,
        List.length_nil, Option.some.injEq]
      ring

lemma valid_date_fmtT {t : Int × Int × Int} (hv : validT t) (hy : 0 ≤ t.2.2) :
    valid_date (fmtT t) = true := by
  have hp := fmtT_parse hv hy
  obtain ⟨d, m, y⟩ := t
  obtain ⟨hm1, hm2, hd1, hd2⟩ := hv
  exact (valid_date_iff _).mpr ⟨d, m, y, hp, hm1, hm2, hd1, hd2⟩

/-- When start and end parse to the same date but are different strings,
the loop steps straight past the end and never terminates. -/
lemma day_countLoop_same_triple {fuel : Nat} {s e : List Char}
    {t : Int × Int × Int} (hps : parse_date s = some t)
    (hpe : parse_date e = some t) (hv : validT t) (hy : 1 ≤ t.2.2)
    (hne : s ≠ e) : day_countLoop fuel s e 0 = none := by
  obtain ⟨d, m, y⟩ := t
  have hy' : 1 ≤ y := hy
  apply day_countLoop_raw_noreach fuel s e 0 hps hv hy hne
  intro k heq
  have hnv := nextT_valid hv
  have hvk := iterN_facts k (nextT (d, m, y)) hnv.1
  have hp' := fmtT_parse hvk.1 (by
    have h1 := hnv.2
    have h2 := hvk.2.1
    omega)
  rw [heq] at hp'
  have hteq : iterN k (nextT (d, m, y)) = (d, m, y) :=
    Option.some_inj.mp (hp'.symm.trans hpe)
  have hd1 := hvk.2.2
  rw [hteq, dayNum_nextT hv] at hd1
  omega

/-- Behaviour of the `__main__` block when both arguments are valid and
both dates are accepted by the `datetime` constructor. -/
lemma runMain_valid {fuel : Nat} {a1 a2 : List Char} {t1 t2 : Int × Int × Int}
    (hv1 : valid_date a1 = true) (hv2 : valid_date a2 = true)
    (hp1 : parse_date a1 = some t1) (hp2 : parse_date a2 = some t2)
    (hok1 : datetimeOK t1.1 t1.2.1 t1.2.2 = true)
    (hok2 : datetimeOK t2.1 t2.2.1 t2.2.2 = true) :
    runMain fuel a1 a2 =
      match day_count fuel (if lexLt3 t1 t2 then a1 else a2)
          (if lexLt3 t1 t2 then a2 else a1) with
      | none => none
      | some none => some MainResult.crashed
      | some (some n) =>
        some (MainResult.printed (theLine (if lexLt3 t1 t2 then a1 else a2)
          (if lexLt3 t1 t2 then a2 else a1) n)) := by
  unfold runMain
  rw [if_neg (by simp [hv1, hv2]), date_compare_eq hp1 hp2,
    if_pos (by rw [hok1, hok2]; rfl)]

/-- With the end date in DD/MM/YYYY form, the loop's canonical rendered
dates can never equal it, so the walk never terminates. -/
lemma loop_ddmm_end_noreach (fuel : Nat) :
    day_countLoop fuel "31/12/2023".toList "05/01/2024".toList 0 = none := by
  apply day_countLoop_raw_noreach fuel _ _ 0
    (show parse_date "31/12/2023".toList = some (31, 12, 2023) from by decide)
    (by decide) (by decide) (by decide)
  intro k heq
  have hnv := nextT_valid (show validT (31, 12, 2023) from by decide)
  have hvk := iterN_facts k (nextT (31, 12, 2023)) hnv.1
  have hslash := fmtT_no_slash hvk.1 (by
    have h1 := hnv.2
    have h2 := hvk.2.1
    omega)
  rw [heq] at hslash
  exact hslash (by decide)

/-! ### The claims -/

/-- C8: `leap_year` returns true iff the year is divisible by 4 and (not
divisible by 100 or divisible by 400); true for 2000, 2024, 1600 and
false for 1900, 2023, 2100. -/
theorem claim_C8_leap_year :
    (∀ y : Int, leap_year y = true ↔ (4 ∣ y ∧ (¬ (100 ∣ y) ∨ 400 ∣ y))) ∧
    leap_year 2000 = true ∧ leap_year 2024 = true ∧ leap_year 1600 = true ∧
    leap_year 1900 = false ∧ leap_year 2023 = false ∧
    leap_year 2100 = false := by
  refine ⟨fun y => ?_, by decide, by decide, by decide, by decide, by decide,
    by decide⟩
  rw [leap_year_iff]
  omega

/-- C6: `valid_date` never raises — parse failures give `false`; on a
successful parse it is `false` iff the month is outside 1..12 or the day
is outside 1..`mon_max`, together with the six concrete examples from the
specification. -/
theorem claim_C6_valid_date :
    valid_date "31/12/2023".toList = true ∧
    valid_date "2024-01-05".toList = true ∧
    valid_date "29/02/2023".toList = false ∧
    valid_date "31/04/2024".toList = false ∧
    valid_date "13/13/2024".toList = false ∧
    valid_date "not-a-date".toList = false ∧
    (∀ s : List Char, valid_date s = true ↔
      ∃ d m y, parse_date s = some (d, m, y) ∧
        1 ≤ m ∧ m ≤ 12 ∧ 1 ≤ d ∧ d ≤ mon_max m y) :=
  ⟨by decide, by decide, by decide, by decide, by decide, by decide,
    valid_date_iff⟩

/-- C7: on every parsed date with an in-range month, `day_of_week` equals
the Zeller-style congruence — year decremented for Jan/Feb, index
`(y + y/4 - y/100 + y/400 + offset[month] + day) mod 7` looked up in the
Sun..Sat table; in particular Jan 1 2024 is a Monday and Jan 1 2000 a
Saturday. -/
theorem claim_C7_day_of_week :
    day_of_week "01/01/2024".toList = some "Mon" ∧
    day_of_week "2000-01-01".toList = some "Sat" ∧
    ∀ (s : List Char) (d m y : Int), parse_date s = some (d, m, y) →
      1 ≤ m → m ≤ 12 →
      day_of_week s = days.get?
        (((if m < 3 then y - 1 else y) + (if m < 3 then y - 1 else y) / 4 -
          (if m < 3 then y - 1 else y) / 100 +
          (if m < 3 then y - 1 else y) / 400 +
          (offset m).getD 0 + d) % 7).toNat :=
  ⟨by decide, by decide, fun s d m y hp h1 h2 => by
    rw [day_of_week_parse hp h1 h2, dayIdx_mk]⟩

/-- C7 witness: the general congruence statement evaluated at
`01/01/2024`. -/
theorem claim_C7_day_of_week_witness :
    parse_date "01/01/2024".toList = some (1, 1, 2024) ∧ (1 : Int) ≤ 1 ∧
    (1 : Int) ≤ 12 ∧
    day_of_week "01/01/2024".toList = days.get?
      ((((if (1 : Int) < 3 then 2024 - 1 else 2024) +
        (if (1 : Int) < 3 then 2024 - 1 else 2024) / 4 -
        (if (1 : Int) < 3 then 2024 - 1 else 2024) / 100 +
        (if (1 : Int) < 3 then 2024 - 1 else 2024) / 400 +
        (offset 1).getD 0 + 1) % 7)).toNat :=
  ⟨by decide, by decide, by decide,
    claim_C7_day_of_week.2.2 "01/01/2024".toList 1 1 2024 (by decide)
      (by decide) (by decide)⟩

/-- C9: `valid_date` accepts the year-0 string `"01/01/0000"`, yet
`date_compare` on it raises (the `datetime` constructor requires years
1..9999), so the program crashes after validation. -/
theorem claim_C9_compare_crash :
    valid_date "01/01/0000".toList = true ∧
    valid_date "2024-01-05".toList = true ∧
    date_compare "01/01/0000".toList "2024-01-05".toList = none ∧
    ∀ fuel, runMain fuel "01/01/0000".toList "2024-01-05".toList =
      some MainResult.crashed := by
  refine ⟨by decide, by decide, by decide, fun fuel => ?_⟩
  unfold runMain
  rw [if_neg (by decide),
    show date_compare "01/01/0000".toList "2024-01-05".toList = none from
      by decide]

/-- C4 counterexample: `previous(next(D)) == D` fails as stated — for the
valid date string `"01/01/2024"` the round trip yields the normalized
string `"2024-01-01"`, which differs from the original. -/
theorem claim_C4_roundtrip_counterexample :
    valid_date "01/01/2024".toList = true ∧
    ((after "01/01/2024".toList).bind before) = some ("2024-01-01".toList) ∧
    ((after "01/01/2024".toList).bind before) ≠ some ("01/01/2024".toList) :=
  ⟨by decide, by decide, by decide⟩

/-- C4 amended: the round trip through `after` then `before` (and through
`before` then `after`) is the identity on valid dates with year at least
one, up to re-parsing: the resulting strings denote the original date. -/
theorem claim_C4_roundtrip_parse (s : List Char) (d m y : Int)
    (hp : parse_date s = some (d, m, y)) (hv : validT (d, m, y))
    (hy : 1 ≤ y) :
    ∃ s1 s2 s3 s4, after s = some s1 ∧ before s1 = some s2 ∧
      parse_date s2 = some (d, m, y) ∧
      before s = some s3 ∧ after s3 = some s4 ∧
      parse_date s4 = some (d, m, y) := by
  have hnv := nextT_valid hv
  have hpv := prevT_valid hv
  have hpn : parse_date (fmtT (nextT (d, m, y))) = some (nextT (d, m, y)) :=
    fmtT_parse hnv.1 (by have := hnv.2; omega)
  have hpp : parse_date (fmtT (prevT (d, m, y))) = some (prevT (d, m, y)) :=
    fmtT_parse hpv.1 (by have := hpv.2.1; omega)
  refine ⟨fmtT (nextT (d, m, y)), fmtT (prevT (nextT (d, m, y))),
    fmtT (prevT (d, m, y)), fmtT (nextT (prevT (d, m, y))),
    after_parse hp, before_parse hpn, ?_, before_parse hp, after_parse hpp, ?_⟩
  · rw [prevT_nextT hv]
    exact fmtT_parse hv (show (0 : Int) ≤ y from by omega)
  · rw [nextT_prevT hv]
    exact fmtT_parse hv (show (0 : Int) ≤ y from by omega)

/-- C4 witness: the amended round trip at the concrete date
`01/03/2024` (which crosses the February boundary backwards). -/
theorem claim_C4_roundtrip_parse_witness :
    parse_date "01/03/2024".toList = some (1, 3, 2024) ∧ validT (1, 3, 2024) ∧
    (1 : Int) ≤ 2024 ∧
    ∃ s1 s2 s3 s4, after "01/03/2024".toList = some s1 ∧ before s1 = some s2 ∧
      parse_date s2 = some (1, 3, 2024) ∧
      before "01/03/2024".toList = some s3 ∧ after s3 = some s4 ∧
      parse_date s4 = some (1, 3, 2024) :=
  ⟨by decide, by decide, by decide,
    claim_C4_roundtrip_parse "01/03/2024".toList 1 3 2024 (by decide)
      (by decide) (by decide)⟩

/-- C10: stepping a `valid_date`-accepted string with a nonnegative year
forward with `after` yields a string that `valid_date` accepts again. -/
theorem claim_C10_after_preserves_valid (s : List Char) (d m y : Int)
    (hv : valid_date s = true) (hp : parse_date s = some (d, m, y))
    (hy : 0 ≤ y) :
    ∃ s', after s = some s' ∧ valid_date s' = true := by
  obtain ⟨d', m', y', hp', hm1, hm2, hd1, hd2⟩ := (valid_date_iff s).mp hv
  have heq : (d, m, y) = (d', m', y') := Option.some_inj.mp (hp.symm.trans hp')
  injection heq with h1 h23
  injection h23 with h2 h3
  subst h1
  subst h2
  subst h3
  have hvt : validT (d, m, y) := ⟨hm1, hm2, hd1, hd2⟩
  have hnv := nextT_valid hvt
  refine ⟨fmtT (nextT (d, m, y)), after_parse hp, ?_⟩
  exact valid_date_fmtT hnv.1 (by have := hnv.2; omega)

/-- C10 witness: stepping the valid date `31/12/9999` (the rendered year
10000 is still accepted by the validator). -/
theorem claim_C10_after_preserves_valid_witness :
    valid_date "31/12/9999".toList = true ∧
    parse_date "31/12/9999".toList = some (31, 12, 9999) ∧ (0 : Int) ≤ 9999 ∧
    ∃ s', after "31/12/9999".toList = some s' ∧ valid_date s' = true :=
  ⟨by decide, by decide, by decide,
    claim_C10_after_preserves_valid "31/12/9999".toList 31 12 9999 (by decide)
      (by decide) (by decide)⟩

/-- C2 counterexample: both arguments are valid and the start is
chronologically before the end, yet `day_count` does not terminate — the
string comparison that ends the loop can never succeed because the end
date is in DD/MM/YYYY form while the loop only ever produces
YYYY-MM-DD strings. -/
theorem claim_C2_nontermination :
    valid_date "31/12/2023".toList = true ∧
    valid_date "05/01/2024".toList = true ∧
    parse_date "31/12/2023".toList = some (31, 12, 2023) ∧
    parse_date "05/01/2024".toList = some (5, 1, 2024) ∧
    chronLt (31, 12, 2023) (5, 1, 2024) ∧
    ¬ day_countTerminates "31/12/2023".toList "05/01/2024".toList := by
  refine ⟨by decide, by decide, by decide, by decide, by decide, ?_⟩
  rintro ⟨fuel, n, hdc⟩
  rw [day_count_eq_none (loop_ddmm_end_noreach fuel)] at hdc
  exact Option.noConfusion hdc

/-- C2 amended: on valid dates whose end argument is the zero-padded
YYYY-MM-DD rendering of its date (and, when the two dates are equal, the
two argument strings are equal), the walk terminates, and the number of
loop iterations — the fuel needed — is bounded by the number of days
between the two dates. -/
theorem claim_C2_termination (s e : List Char) (t1 t2 : Int × Int × Int)
    (fuel : Nat) (hp1 : parse_date s = some t1) (hv1 : validT t1)
    (hy1 : 1 ≤ t1.2.2) (hv2 : validT t2) (hy2 : 1 ≤ t2.2.2)
    (he : e = fmtT t2) (hord : chronLt t1 t2 ∨ s = e)
    (hfuel : (dayNum t2 - dayNum t1).toNat ≤ fuel) :
    day_countTerminates s e ∧ ∃ n, day_count fuel s e = some (some n) :=
  ⟨⟨fuel, _, day_count_master hp1 hv1 hy1 hv2 hy2 he hord hfuel⟩,
    _, day_count_master hp1 hv1 hy1 hv2 hy2 he hord hfuel⟩

/-- C2 witness: termination within 5 iterations from `31/12/2023` to
`2024-01-05`, five days apart. -/
theorem claim_C2_termination_witness :
    parse_date "31/12/2023".toList = some (31, 12, 2023) ∧
    validT (31, 12, 2023) ∧ (1 : Int) ≤ 2023 ∧ validT (5, 1, 2024) ∧
    (1 : Int) ≤ 2024 ∧
    "2024-01-05".toList = fmtT (5, 1, 2024) ∧
    chronLt (31, 12, 2023) (5, 1, 2024) ∧
    (dayNum (5, 1, 2024) - dayNum (31, 12, 2023)).toNat ≤ 5 ∧
    (day_countTerminates "31/12/2023".toList "2024-01-05".toList ∧
      ∃ n, day_count 5 "31/12/2023".toList "2024-01-05".toList =
        some (some n)) :=
  ⟨by decide, by decide, by decide, by decide, by decide, by decide,
    by decide, by decide,
    claim_C2_termination "31/12/2023".toList "2024-01-05".toList
      (31, 12, 2023) (5, 1, 2024) 5 (by decide) (by decide) (by decide)
      (by decide) (by decide) (by decide) (Or.inl (by decide)) (by decide)⟩

/-- C3 counterexample: both arguments are valid and the start is
chronologically before the end, yet `day_count` returns nothing for any
fuel — the end string `"2024-1-2"` is not zero-padded, so it never equals
the loop's rendered dates. -/
theorem claim_C3_wrong_for_noncanonical :
    valid_date "2024-01-01".toList = true ∧
    valid_date "2024-1-2".toList = true ∧
    parse_date "2024-01-01".toList = some (1, 1, 2024) ∧
    parse_date "2024-1-2".toList = some (2, 1, 2024) ∧
    chronLt (1, 1, 2024) (2, 1, 2024) ∧
    ¬ day_countTerminates "2024-01-01".toList "2024-1-2".toList := by
  refine ⟨by decide, by decide, by decide, by decide, by decide, ?_⟩
  rintro ⟨fuel, n, hdc⟩
  have hloop : day_countLoop fuel "2024-01-01".toList "2024-1-2".toList 0 =
      none := by
    apply day_countLoop_raw_noreach fuel _ _ 0
      (show parse_date "2024-01-01".toList = some (1, 1, 2024) from by decide)
      (by decide) (by decide) (by decide)
    intro k heq
    have hnv := nextT_valid (show validT (1, 1, 2024) from by decide)
    have hvk := iterN_facts k (nextT (1, 1, 2024)) hnv.1
    have hp' := fmtT_parse hvk.1 (by
      have h1 := hnv.2
      have h2 := hvk.2.1
      omega)
    rw [heq] at hp'
    have hteq : iterN k (nextT (1, 1, 2024)) = (2, 1, 2024) :=
      Option.some_inj.mp (hp'.symm.trans (by decide))
    rw [hteq] at heq
    exact absurd heq (by decide)
  rw [day_count_eq_none hloop] at hdc
  exact Option.noConfusion hdc

/-- C3 amended: on valid dates whose end argument is the zero-padded
YYYY-MM-DD rendering of its date (equal dates only as equal strings),
`day_count` returns the number of calendar days in the inclusive range
whose weekday is Saturday or Sunday. -/
theorem claim_C3_day_count_correct (s e : List Char)
    (t1 t2 : Int × Int × Int) (fuel : Nat) (hp1 : parse_date s = some t1)
    (hv1 : validT t1) (hy1 : 1 ≤ t1.2.2) (hv2 : validT t2)
    (hy2 : 1 ≤ t2.2.2) (he : e = fmtT t2) (hord : chronLt t1 t2 ∨ s = e)
    (hfuel : (dayNum t2 - dayNum t1).toNat ≤ fuel) :
    day_count fuel s e =
      some (some (weekendCount ((dayNum t2 - dayNum t1).toNat + 1) t1)) :=
  day_count_master hp1 hv1 hy1 hv2 hy2 he hord hfuel

/-- C3 witness: from `01/03/2024` (a Friday, in DD/MM/YYYY form) to
`2024-03-05`, the range Fri..Tue contains exactly the weekend pair. -/
theorem claim_C3_day_count_correct_witness :
    parse_date "01/03/2024".toList = some (1, 3, 2024) ∧
    validT (1, 3, 2024) ∧ (1 : Int) ≤ 2024 ∧ validT (5, 3, 2024) ∧
    (1 : Int) ≤ 2024 ∧ "2024-03-05".toList = fmtT (5, 3, 2024) ∧
    chronLt (1, 3, 2024) (5, 3, 2024) ∧
    (dayNum (5, 3, 2024) - dayNum (1, 3, 2024)).toNat ≤ 4 ∧
    day_count 4 "01/03/2024".toList "2024-03-05".toList =
      some (some (weekendCount ((dayNum (5, 3, 2024) -
        dayNum (1, 3, 2024)).toNat + 1) (1, 3, 2024))) ∧
    weekendCount ((dayNum (5, 3, 2024) - dayNum (1, 3, 2024)).toNat + 1)
      (1, 3, 2024) = 2 :=
  ⟨by decide, by decide, by decide, by decide, by decide, by decide,
    by decide, by decide,
    claim_C3_day_count_correct "01/03/2024".toList "2024-03-05".toList
      (1, 3, 2024) (5, 3, 2024) 4 (by decide) (by decide) (by decide)
      (by decide) (by decide) (by decide) (Or.inl (by decide)) (by decide),
    by decide⟩

lemma mainTail_none {fuel : Nat} {x y : List Char}
    (h : day_count fuel x y = none) :
    (match day_count fuel x y with
      | none => (none : Option MainResult)
      | some none => some MainResult.crashed
      | some (some n) => some (MainResult.printed (theLine x y n))) = none := by
  rw [h]

/-- C5: the program's observable behaviour is symmetric in its two date
arguments at every fuel — the swap after `date_compare` makes the result
order-independent (including the cases where it crashes or never
terminates). -/
theorem claim_C5_order_independent (fuel : Nat) (a1 a2 : List Char) :
    runMain fuel a1 a2 = runMain fuel a2 a1 := by
  unfold runMain
  cases hv1 : valid_date a1 <;> cases hv2 : valid_date a2
  · rw [if_pos (by decide), if_pos (by decide)]
  · rw [if_pos (by decide), if_pos (by decide)]
  · rw [if_pos (by decide), if_pos (by decide)]
  · rw [if_neg (by decide), if_neg (by decide)]
    obtain ⟨t1, hp1, hvt1⟩ := valid_date_parse hv1
    obtain ⟨t2, hp2, hvt2⟩ := valid_date_parse hv2
    rw [date_compare_eq hp1 hp2, date_compare_eq hp2 hp1]
    cases hok1 : datetimeOK t1.1 t1.2.1 t1.2.2 <;>
      cases hok2 : datetimeOK t2.1 t2.2.1 t2.2.2
    · rw [if_neg (by decide), if_neg (by decide)]
    · rw [if_neg (by decide), if_neg (by decide)]
    · rw [if_neg (by decide), if_neg (by decide)]
    · rw [if_pos (by decide), if_pos (by decide)]
      rcases chron_total t1 t2 with hle | hgt
      · rcases hle with hlt | heqt
        · rw [show lexLt3 t1 t2 = true from lexLt3_true.mpr hlt,
            show lexLt3 t2 t1 = false from
              Bool.eq_false_iff.mpr (fun hb =>
                chronLt_asymm hlt (lexLt3_true.mp hb))]
          rfl
        · subst heqt
          rw [show lexLt3 t1 t1 = false from
            Bool.eq_false_iff.mpr (fun hb =>
              chronLt_irrefl t1 (lexLt3_true.mp hb))]
          rcases eq_or_ne a1 a2 with hss | hss
          · subst hss
            rfl
          · have hy1 : 1 ≤ t1.2.2 := (datetimeOK_validT hok1).2.1
            have d1 : day_countLoop fuel a2 a1 0 = none :=
              day_countLoop_same_triple hp2 hp1 hvt1 hy1 (Ne.symm hss)
            have d2 : day_countLoop fuel a1 a2 0 = none :=
              day_countLoop_same_triple hp1 hp2 hvt1 hy1 hss
            exact (mainTail_none (day_count_eq_none d1)).trans
              (mainTail_none (day_count_eq_none d2)).symm
      · rw [show lexLt3 t1 t2 = false from
            Bool.eq_false_iff.mpr (fun hb =>
              chronLt_asymm hgt (lexLt3_true.mp hb)),
          show lexLt3 t2 t1 = true from lexLt3_true.mpr hgt]
        rfl

/-- C1 counterexample: for the valid argument pair `31/12/2023`,
`05/01/2024` (the specification's own example) the program prints no line
at all — the counting loop never terminates because the end argument is
not in the loop's YYYY-MM-DD string format. -/
theorem claim_C1_no_line_for_ddmm :
    valid_date "31/12/2023".toList = true ∧
    valid_date "05/01/2024".toList = true ∧
    ¬ ∃ line, mainPrints "31/12/2023".toList "05/01/2024".toList line := by
  refine ⟨by decide, by decide, ?_⟩
  rintro ⟨line, fuel, hrm⟩
  unfold runMain at hrm
  rw [if_neg (by decide),
    show date_compare "31/12/2023".toList "05/01/2024".toList = some true from
      by decide] at hrm
  have hrm' : (match day_count fuel "31/12/2023".toList "05/01/2024".toList with
      | none => (none : Option MainResult)
      | some none => some MainResult.crashed
      | some (some n) =>
        some (MainResult.printed
          (theLine "31/12/2023".toList "05/01/2024".toList n)))
      = some (MainResult.printed line) := hrm
  rw [day_count_eq_none (loop_ddmm_end_noreach fuel)] at hrm'
  exact Option.noConfusion hrm'

/-- C1 amended: when both arguments are zero-padded YYYY-MM-DD renderings
of `datetime`-acceptable dates and the fuel covers the day difference,
the program prints exactly the specified line, with the two dates in
chronological order and the weekend-day count of the inclusive range. -/
theorem claim_C1_output_line (t1 t2 : Int × Int × Int) (fuel : Nat)
    (hok1 : datetimeOK t1.1 t1.2.1 t1.2.2 = true)
    (hok2 : datetimeOK t2.1 t2.2.1 t2.2.2 = true)
    (hfuel : (dayNum (if lexLt3 t1 t2 then t2 else t1) -
      dayNum (if lexLt3 t1 t2 then t1 else t2)).toNat ≤ fuel) :
    runMain fuel (fmtT t1) (fmtT t2) =
      some (MainResult.printed
        (theLine (fmtT (if lexLt3 t1 t2 then t1 else t2))
          (fmtT (if lexLt3 t1 t2 then t2 else t1))
          (weekendCount ((dayNum (if lexLt3 t1 t2 then t2 else t1) -
            dayNum (if lexLt3 t1 t2 then t1 else t2)).toNat + 1)
            (if lexLt3 t1 t2 then t1 else t2)))) := by
  obtain ⟨hvt1, hy1, hyy1⟩ := datetimeOK_validT hok1
  obtain ⟨hvt2, hy2, hyy2⟩ := datetimeOK_validT hok2
  have hp1 : parse_date (fmtT t1) = some t1 := fmtT_parse hvt1 (by omega)
  have hp2 : parse_date (fmtT t2) = some t2 := fmtT_parse hvt2 (by omega)
  rw [runMain_valid (valid_date_fmtT hvt1 (by omega))
    (valid_date_fmtT hvt2 (by omega)) hp1 hp2 hok1 hok2]
  cases hb : lexLt3 t1 t2
  · simp only [hb, Bool.false_eq_true, if_false] at hfuel ⊢
    have horder : chronLt t2 t1 ∨ fmtT t2 = fmtT t1 := by
      rcases chron_total t1 t2 with hle | hgt
      · rcases hle with hlt | heqt
        · exact absurd (lexLt3_true.mpr hlt) (by rw [hb]; decide)
        · exact Or.inr (congrArg fmtT heqt.symm)
      · exact Or.inl hgt
    rw [day_count_master hp2 hvt2 hy2 hvt1 hy1 rfl horder hfuel]
  · simp only [hb, if_true] at hfuel ⊢
    have horder : chronLt t1 t2 ∨ fmtT t1 = fmtT t2 :=
      Or.inl (lexLt3_true.mp hb)
    rw [day_count_master hp1 hvt1 hy1 hvt2 hy2 rfl horder hfuel]

/-- C1 witness: the specification's example pair rendered canonically —
the program prints the expected line with one weekend day. -/
theorem claim_C1_output_line_witness :
    datetimeOK (31, 12, 2023).1 (31, 12, 2023).2.1 (31, 12, 2023).2.2 = true ∧
    datetimeOK (5, 1, 2024).1 (5, 1, 2024).2.1 (5, 1, 2024).2.2 = true ∧
    (dayNum (if lexLt3 (31, 12, 2023) (5, 1, 2024) then (5, 1, 2024)
        else (31, 12, 2023)) -
      dayNum (if lexLt3 (31, 12, 2023) (5, 1, 2024) then (31, 12, 2023)
        else (5, 1, 2024))).toNat ≤ 5 ∧
    runMain 5 (fmtT (31, 12, 2023)) (fmtT (5, 1, 2024)) =
      some (MainResult.printed
        (theLine (fmtT (if lexLt3 (31, 12, 2023) (5, 1, 2024)
            then (31, 12, 2023) else (5, 1, 2024)))
          (fmtT (if lexLt3 (31, 12, 2023) (5, 1, 2024)
            then (5, 1, 2024) else (31, 12, 2023)))
          (weekendCount ((dayNum (if lexLt3 (31, 12, 2023) (5, 1, 2024)
              then (5, 1, 2024) else (31, 12, 2023)) -
            dayNum (if lexLt3 (31, 12, 2023) (5, 1, 2024)
              then (31, 12, 2023) else (5, 1, 2024))).toNat + 1)
            (if lexLt3 (31, 12, 2023) (5, 1, 2024) then (31, 12, 2023)
              else (5, 1, 2024))))) ∧
    fmtT (31, 12, 2023) = "2023-12-31".toList ∧
    fmtT (5, 1, 2024) = "2024-01-05".toList ∧
    theLine "2023-12-31".toList "2024-01-05".toList 1 =
      "The period between 2023-12-31 and 2024-01-05 includes 1 weekend days.".toList :=
  ⟨by decide, by decide, by decide,
    claim_C1_output_line (31, 12, 2023) (5, 1, 2024) 5 (by decide) (by decide)
      (by decide),
    by decide, by decide, by decide⟩

-- sanity checks on concrete data
example : parse_date "31/12/2023".toList = some (31, 12, 2023) := by decide
example : parse_date "2024-01-05".toList = some (5, 1, 2024) := by decide
example : parse_date "not-a-date".toList = none := by decide
example : valid_date "29/02/2023".toList = false := by decide
example : valid_date "29/02/2024".toList = true := by decide
example : day_of_week "01/01/2024".toList = some "Mon" := by decide
example : day_of_week "2000-01-01".toList = some "Sat" := by decide
example : after "31/12/2023".toList = some "2024-01-01".toList := by decide
example : before "01/01/2024".toList = some "2023-12-31".toList := by decide
example : after "28/02/2024".toList = some "2024-02-29".toList := by decide
example : day_count 6 "2023-12-31".toList "2024-01-05".toList = some (some 1) := by decide
example : day_countLoop 8 "31/12/2023".toList "05/01/2024".toList 0 = none := by decide
example : date_compare "01/01/0000".toList "2024-01-05".toList = none := by decide
example : runMain 6 "2023-12-31".toList "2024-01-05".toList =
    some (MainResult.printed "The period between 2023-12-31 and 2024-01-05 includes 1 weekend days.".toList) := by decide

end Assignment1
